import Mathlib

/-!
Shallow embedding of the `use-resource` cache core
(`src/resource-store.ts`, `src/fetch-resource.ts`, `src/resource-state.ts`)
together with proofs of the specification's claims about it.

The cache maps each key to at most one `Resource`; all the claims are
per-key, so the model tracks the state attached to one key.  JavaScript
objects may lack fields, so `Resource` is a record of `Option` fields with
a `status` tag, mirroring the object literals and spreads of the source
rather than the ideal tagged union of `types.ts`.  Promises are modelled
by identity: each producer invocation that returns a promise allocates a
fresh suspender id, and the continuation installed by `.finally` is kept
in `StoreState.ops` until a `settle` step fires it.  Cooperative
concurrency is modelled by a small-step machine (`Cmd`/`step`/`run`)
whose steps are: one synchronous `fetchResource` call, one promise
settlement, or one `mutate` call.  Every store write and every
`notifySubscribers` call is recorded as an `Event` so that notification
and producer-invocation counting claims can be stated over traces.
-/

set_option autoImplicit false

namespace UseResource

/-- Status tag of a cached resource (`types.ts`, `ResourceStatus`). -/
inductive ResourceStatus
  | pending
  | fulfilled
  | rejected
  | revalidating
deriving DecidableEq, Repr

/-- A cached entry for one key, as the JavaScript object it is: a status
tag plus possibly-absent fields.  `suspender` holds the identity (an id)
of the promise stored on the entry; `version` is the `$version` field. -/
structure Resource (α ε : Type) where
  status : ResourceStatus
  result : Option α := none
  error : Option ε := none
  suspender : Option Nat := none
  timestamp : Option Nat := none
  version : Option Nat := none
deriving DecidableEq, Repr

/-- What one producer invocation (`fn()`) does: return a plain value,
throw synchronously, or return a promise (`fetch-resource.ts` handles
exactly these three shapes via `isPromise` and `try/catch`). -/
inductive ProducerBehavior (α ε : Type)
  | syncValue (v : α)
  | syncThrow (e : ε)
  | async
deriving DecidableEq, Repr

/-- Observable events of one operation, in order: a producer invocation
(`fn()`), a store write (`store.cache.set(key, r)`), or a call to
`store.notifySubscribers(key)`. -/
inductive Event (α ε : Type)
  | invoke
  | write (r : Resource α ε)
  | notify
deriving DecidableEq, Repr

/-- An in-flight asynchronous operation: the suspender id of its promise
and the `nextVersion` captured by `handleOperation` when it started
(`fetch-resource.ts` line 80); its `.finally` continuation writes an
entry carrying exactly that version when the promise settles. -/
structure PendingOp where
  id : Nat
  nextVersion : Nat
deriving DecidableEq, Repr

/-- The per-key portion of the store plus the scheduler bookkeeping:
`entry` is `cache.get(key)`, `ops` the not-yet-settled promise
continuations, `nextOpId` a fresh-promise-id source, and `invocations`
the count of producer invocations so far (used to index the behavior of
the next invocation). -/
structure StoreState (α ε : Type) where
  entry : Option (Resource α ε) := none
  ops : List PendingOp := []
  nextOpId : Nat := 0
  invocations : Nat := 0
deriving DecidableEq, Repr

/-- The initial store: no entry for the key, nothing in flight. -/
def emptyStore (α ε : Type) : StoreState α ε := {}

/-- Modelled from the spec: the helper `seconds` of `utils/time` is not in
the source tree; the spec fixes `ttl` in seconds (§6: "`ttl` (seconds,
default 60)") and timestamps as wall-clock milliseconds (`Date.now()`),
so `seconds ttl` is `ttl * 1000`. -/
def seconds (ttl : Nat) : Nat := ttl * 1000

/-- Embeds `isSettled` (`resource-store.ts` lines 60-64):
`!!resource && 'timestamp' in resource`. -/
def isSettled {α ε : Type} (r : Option (Resource α ε)) : Bool :=
  match r with
  | none => false
  | some r => r.timestamp.isSome

/-- Embeds `isStale` (`resource-state.ts` lines 25-33):
`resource?.status === 'fulfilled' && resource?.timestamp + seconds(ttl) < Date.now()`.
Fulfilled entries always carry a timestamp, so reading it with a default
of 0 is faithful. -/
def isStale {α ε : Type} (ttl : Nat) (now : Nat) (r : Option (Resource α ε)) : Bool :=
  match r with
  | none => false
  | some r =>
    decide (r.status = ResourceStatus.fulfilled) &&
      decide (r.timestamp.getD 0 + seconds ttl < now)

/-- Options of `fetchResource` (`fetch-resource.ts` lines 12-19); each is
optional in the source, with defaults `ttl = 60`, `suspense = true`,
`force = false` read via `??`. -/
structure FetchResourceOptions where
  ttl : Option Nat := none
  suspense : Option Bool := none
  force : Option Bool := none
deriving DecidableEq, Repr

/-- What one `fetchResource` call does at its end (`fetch-resource.ts`
lines 159-171): return `resource.result`, return `resource.error`,
return the `undefined` sentinel, or throw `resource.suspender`. -/
inductive FetchOutcome (α ε : Type)
  | retResult (v : Option α)
  | retError (e : Option ε)
  | retUndefined
  | throwSuspender (s : Option Nat)
deriving DecidableEq, Repr

/-- The object spread `{...resource, suspender, status}` of
`fetch-resource.ts` lines 137-141: spreading `undefined` contributes no
fields. -/
def jsSpread {α ε : Type} (r : Option (Resource α ε)) (susp : Nat)
    (st : ResourceStatus) : Resource α ε :=
  match r with
  | none => { status := st, suspender := some susp }
  | some r => { r with suspender := some susp, status := st }

/-- Embeds `handleOperation` (`fetch-resource.ts` lines 78-145).  Arguments: the
behavior of the producer's next invocations (indexed by the global
invocation counter), `Date.now()`, the `status` local variable at call
time, and the `resource` local variable.  Returns the updated `resource`
local, the updated store, and the events of this call.  The
synchronous-throw branch (lines 98-108) writes the rejected entry and
returns without calling `notifySubscribers`; the asynchronous branch
registers the `.finally` continuation (as a `PendingOp`) and writes the
spread entry, then notifies. -/
def handleOperation {α ε : Type} (fn : Nat → ProducerBehavior α ε) (now : Nat)
    (status : ResourceStatus) (resource : Option (Resource α ε))
    (st : StoreState α ε) :
    Resource α ε × StoreState α ε × List (Event α ε) :=
  let nextVersion :=
    if isSettled resource then (resource.map (fun r => r.version.getD 0)).getD 0 + 1 else 0
  match fn st.invocations with
  | ProducerBehavior.syncValue v =>
    let r : Resource α ε :=
      { status := ResourceStatus.fulfilled, result := some v,
        timestamp := some now, version := some nextVersion }
    (r, { st with entry := some r, invocations := st.invocations + 1 },
      [Event.invoke, Event.write r, Event.notify])
  | ProducerBehavior.syncThrow e =>
    let r : Resource α ε :=
      { status := ResourceStatus.rejected, error := some e,
        timestamp := some now, version := some nextVersion }
    (r, { st with entry := some r, invocations := st.invocations + 1 },
      [Event.invoke, Event.write r])
  | ProducerBehavior.async =>
    let sid := st.nextOpId
    let r := jsSpread resource sid status
    let st' : StoreState α ε :=
      { entry := some r, nextOpId := sid + 1, ops := st.ops ++ [⟨sid, nextVersion⟩],
        invocations := st.invocations + 1 }
    (r, st', [Event.invoke, Event.write r, Event.notify])

/-- The return/throw tail of `fetchResource` (`fetch-resource.ts` lines
159-171): throw the suspender (suspense) or return the `undefined`
sentinel (no suspense) while `pending`; return the stored error while
`rejected`; otherwise return the stored result. -/
def outcomeOf {α ε : Type} (r : Resource α ε) (suspense : Bool) : FetchOutcome α ε :=
  if r.status = ResourceStatus.pending then
    if suspense then FetchOutcome.throwSuspender r.suspender
    else FetchOutcome.retUndefined
  else if r.status = ResourceStatus.rejected then FetchOutcome.retError r.error
  else FetchOutcome.retResult r.result

/-- Embeds `fetchResource` (`fetch-resource.ts` lines 55-172): read the entry,
compute `shouldRevalidate = isStale(ttl, resource) || options?.force`,
run `handleOperation` for a missing entry (status `pending`) and again
when revalidating (status `revalidating`), then return or throw
according to the final `resource` local. -/
def fetchResource {α ε : Type} (fn : Nat → ProducerBehavior α ε) (now : Nat)
    (opts : FetchResourceOptions) (st : StoreState α ε) :
    FetchOutcome α ε × StoreState α ε × List (Event α ε) :=
  let resource0 := st.entry
  let ttl := opts.ttl.getD 60
  let suspense := opts.suspense.getD true
  let shouldRevalidate := isStale ttl now resource0 || opts.force.getD false
  let step1 :
      Option (Resource α ε) × StoreState α ε × List (Event α ε) :=
    match resource0 with
    | none =>
      let h := handleOperation fn now ResourceStatus.pending none st
      (some h.1, h.2.1, h.2.2)
    | some r => (some r, st, [])
  let step2 :
      Option (Resource α ε) × StoreState α ε × List (Event α ε) :=
    if shouldRevalidate then
      let h := handleOperation fn now ResourceStatus.revalidating step1.1 step1.2.1
      (some h.1, h.2.1, step1.2.2 ++ h.2.2)
    else step1
  let outcome :=
    match step2.1 with
    | none => FetchOutcome.retResult none
    | some r => outcomeOf r suspense
  (outcome, step2.2.1, step2.2.2)

/-- Embeds `mutate` (`resource-store.ts` lines 35-54): succeed only when an
entry exists whose status is neither `pending` nor `revalidating`;
settled entries always carry a `$version`, so reading it with a default
of 0 is faithful. -/
def mutate {α ε : Type} (v : α) (now : Nat) (st : StoreState α ε) :
    Bool × StoreState α ε × List (Event α ε) :=
  match st.entry with
  | none => (false, st, [])
  | some r =>
    if r.status ≠ ResourceStatus.pending ∧ r.status ≠ ResourceStatus.revalidating then
      let r' : Resource α ε :=
        { status := ResourceStatus.fulfilled, result := some v,
          timestamp := some now, version := some (r.version.getD 0 + 1) }
      (true, { st with entry := some r' }, [Event.write r', Event.notify])
    else (false, st, [])

/-- Result of an awaited promise: resolve with a value or reject with an
error. -/
inductive SettleResult (α ε : Type)
  | ok (v : α)
  | err (e : ε)
deriving DecidableEq, Repr

/-- Settlement of the promise with suspender id `sid`: runs the
`.then/.catch/.finally` chain of `fetch-resource.ts` lines 112-134 —
build the settled entry with the captured `nextVersion`, write it
unconditionally, and notify.  A `sid` with no registered continuation
does nothing. -/
def settle {α ε : Type} (sid : Nat) (res : SettleResult α ε) (now : Nat)
    (st : StoreState α ε) : StoreState α ε × List (Event α ε) :=
  match st.ops.find? (fun o => o.id == sid) with
  | none => (st, [])
  | some op =>
    let r : Resource α ε :=
      match res with
      | SettleResult.ok v =>
        { status := ResourceStatus.fulfilled, result := some v,
          suspender := some sid, timestamp := some now,
          version := some op.nextVersion }
      | SettleResult.err e =>
        { status := ResourceStatus.rejected, error := some e,
          suspender := some sid, timestamp := some now,
          version := some op.nextVersion }
    ({ st with entry := some r, ops := st.ops.filter (fun o => o.id != sid) },
      [Event.write r, Event.notify])

/-- Embeds `notifySubscribers` (`resource-store.ts` lines 28-33): invoke every
listener currently subscribed for the key; modelled as the list of
listeners invoked, in iteration order. -/
def notifySubscribers {L : Type} (subscribers : List L) : List L :=
  subscribers

/-- The listeners invoked over a trace: each `notify` event runs
`notifySubscribers` on the currently subscribed listeners. -/
def invokedListeners {α ε L : Type} (subscribers : List L)
    (ev : List (Event α ε)) : List L :=
  match ev with
  | [] => []
  | Event.notify :: es => notifySubscribers subscribers ++ invokedListeners subscribers es
  | _ :: es => invokedListeners subscribers es

/-- Number of producer invocations recorded in a trace. -/
def invokeCount {α ε : Type} (ev : List (Event α ε)) : Nat :=
  match ev with
  | [] => 0
  | Event.invoke :: es => invokeCount es + 1
  | _ :: es => invokeCount es

/-- The `$version` values of the settlement writes of a trace, in order:
a settlement is a write whose status is `fulfilled` or `rejected`
(a completed fetch, a completed revalidation, or a successful mutate);
`pending`/`revalidating` writes are in-flight, not settlements. -/
def settledVersions {α ε : Type} (ev : List (Event α ε)) : List Nat :=
  match ev with
  | [] => []
  | Event.write r :: es =>
    if r.status = ResourceStatus.fulfilled ∨ r.status = ResourceStatus.rejected then
      r.version.getD 0 :: settledVersions es
    else settledVersions es
  | _ :: es => settledVersions es

/-- Holds (`true`) exactly on a `notify` event. -/
def isNotifyEvent {α ε : Type} : Event α ε → Bool
  | Event.notify => true
  | _ => false

/-- Holds (`true`) when every store write in the trace is followed (later in the
same trace) by at least one listener notification. -/
def writesNotifiedB {α ε : Type} (ev : List (Event α ε)) : Bool :=
  match ev with
  | [] => true
  | Event.write _ :: es =>
    es.any isNotifyEvent && writesNotifiedB es
  | _ :: es => writesNotifiedB es

/-- Holds (`true`) when every store write in the trace is followed by a
notification, except possibly writes of `rejected` entries (inside one
`fetchResource` call a rejected write only arises from a synchronous
producer throw). -/
def writesNotifiedUnlessRejectedB {α ε : Type} (ev : List (Event α ε)) : Bool :=
  match ev with
  | [] => true
  | Event.write r :: es =>
    (decide (r.status = ResourceStatus.rejected) || es.any isNotifyEvent) &&
      writesNotifiedUnlessRejectedB es
  | _ :: es => writesNotifiedUnlessRejectedB es

/-- One scheduler step: a synchronous `fetchResource` call, the
settlement of an outstanding promise, or a `mutate` call. -/
inductive Cmd (α ε : Type)
  | fetch (now : Nat) (opts : FetchResourceOptions)
  | settleOp (sid : Nat) (res : SettleResult α ε) (now : Nat)
  | mutateCmd (v : α) (now : Nat)

/-- Apply one scheduler step to the store. -/
def step {α ε : Type} (fn : Nat → ProducerBehavior α ε) (st : StoreState α ε) :
    Cmd α ε → StoreState α ε × List (Event α ε)
  | Cmd.fetch now opts =>
    let f := fetchResource fn now opts st
    (f.2.1, f.2.2)
  | Cmd.settleOp sid res now => settle sid res now st
  | Cmd.mutateCmd v now =>
    let m := mutate v now st
    (m.2.1, m.2.2)

/-- Run a list of scheduler steps, concatenating their traces. -/
def run {α ε : Type} (fn : Nat → ProducerBehavior α ε) (st : StoreState α ε) :
    List (Cmd α ε) → StoreState α ε × List (Event α ε)
  | [] => (st, [])
  | c :: cs =>
    let s1 := step fn st c
    let s2 := run fn s1.1 cs
    (s2.1, s1.2 ++ s2.2)

/-- The `$version` carried by the current entry (0 when there is no entry
or the entry carries none, as for a bare pending entry). -/
def entryVersion {α ε : Type} (e : Option (Resource α ε)) : Nat :=
  match e with
  | none => 0
  | some r => r.version.getD 0

/-- The next settlement version the key will produce: `$version + 1` of a
settled entry, 0 for no entry or a bare pending entry — exactly the
`nextVersion` computation of `handleOperation`. -/
def height {α ε : Type} (e : Option (Resource α ε)) : Nat :=
  match e with
  | none => 0
  | some r => if r.timestamp.isSome then r.version.getD 0 + 1 else 0

/-- Holds (`true`) when the `$version`s of the writes of the trace are
nondecreasing, starting from `v` (the version of the current entry) and
ending at `v'` (the version of the final entry): no write replaces the
entry with one carrying an older `$version`. -/
def writeChainB {α ε : Type} (v : Nat) (ev : List (Event α ε)) (v' : Nat) : Bool :=
  match ev with
  | [] => v' == v
  | Event.write r :: es => (v ≤ r.version.getD 0) && writeChainB (r.version.getD 0) es v'
  | _ :: es => writeChainB v es v'

/-- Reachable-state invariant for runs without forced overlap: either
nothing is in flight and the entry is absent or settled fulfilled /
rejected, or exactly one operation is in flight, the entry is the
pending / revalidating entry that announced it, and the operation's
captured `nextVersion` is the key's next settlement version. -/
def Inv {α ε : Type} (st : StoreState α ε) : Prop :=
  (st.ops = [] ∧
    (st.entry = none ∨ ∃ r, st.entry = some r ∧
      (r.status = ResourceStatus.fulfilled ∨ r.status = ResourceStatus.rejected) ∧
      r.timestamp.isSome = true ∧ r.version.isSome = true))
  ∨ (∃ op r, st.ops = [op] ∧ st.entry = some r ∧
      (r.status = ResourceStatus.pending ∨ r.status = ResourceStatus.revalidating) ∧
      op.nextVersion = height st.entry ∧
      (r.status = ResourceStatus.pending → r.timestamp = none ∧ r.version = none) ∧
      (r.status = ResourceStatus.revalidating →
        r.timestamp.isSome = true ∧ r.version.isSome = true))

/-- A step is overlap-free when it is not a forced fetch issued while an
operation may be in flight: a forced fetch is allowed only when nothing
is in flight and a settled entry exists. -/
def okCmd {α ε : Type} (st : StoreState α ε) : Cmd α ε → Prop
  | Cmd.fetch _ opts =>
    opts.force.getD false = false ∨ (st.ops = [] ∧ isSettled st.entry = true)
  | _ => True

/-- A run is guarded when each of its steps is overlap-free in the state
it executes in. -/
def Guarded {α ε : Type} (fn : Nat → ProducerBehavior α ε) :
    StoreState α ε → List (Cmd α ε) → Prop
  | _, [] => True
  | st, c :: cs => okCmd st c ∧ Guarded fn (step fn st c).1 cs

/-! ## Path lemmas for `fetchResource` -/

/-- A non-fulfilled entry is never stale. -/
theorem isStale_of_not_fulfilled {α ε : Type} {ttl now : Nat} {r : Resource α ε}
    (h : r.status ≠ ResourceStatus.fulfilled) : isStale ttl now (some r) = false := by
  simp [isStale, h]

/-- A call that finds an entry and has no reason to revalidate touches
nothing: no producer invocation, no write, no notification, and the
outcome is read off the existing entry. -/
theorem fetch_noop {α ε : Type} {fn : Nat → ProducerBehavior α ε} {now : Nat}
    {opts : FetchResourceOptions} {st : StoreState α ε} {r : Resource α ε}
    (h1 : st.entry = some r)
    (h2 : isStale (opts.ttl.getD 60) now (some r) = false)
    (h3 : opts.force.getD false = false) :
    fetchResource fn now opts st = (outcomeOf r (opts.suspense.getD true), st, []) := by
  simp [fetchResource, h1, h2, h3]

/-- A call on a cold key without `force` is exactly one `handleOperation`
with status `pending`. -/
theorem fetch_cold {α ε : Type} {fn : Nat → ProducerBehavior α ε} {now : Nat}
    {opts : FetchResourceOptions} {st : StoreState α ε}
    (h1 : st.entry = none)
    (h3 : opts.force.getD false = false) :
    fetchResource fn now opts st =
      (outcomeOf (handleOperation fn now ResourceStatus.pending none st).1
        (opts.suspense.getD true),
       (handleOperation fn now ResourceStatus.pending none st).2.1,
       (handleOperation fn now ResourceStatus.pending none st).2.2) := by
  simp [fetchResource, h1, h3, isStale]

/-- A call that finds an entry and must revalidate is exactly one
`handleOperation` with status `revalidating` on that entry. -/
theorem fetch_reval {α ε : Type} {fn : Nat → ProducerBehavior α ε} {now : Nat}
    {opts : FetchResourceOptions} {st : StoreState α ε} {r : Resource α ε}
    (h1 : st.entry = some r)
    (h2 : (isStale (opts.ttl.getD 60) now (some r) || opts.force.getD false) = true) :
    fetchResource fn now opts st =
      (outcomeOf (handleOperation fn now ResourceStatus.revalidating (some r) st).1
        (opts.suspense.getD true),
       (handleOperation fn now ResourceStatus.revalidating (some r) st).2.1,
       (handleOperation fn now ResourceStatus.revalidating (some r) st).2.2) := by
  simp [fetchResource, h1, h2]

/-! ## `mutate` lemmas -/

/-- The `newResource` literal of `mutate` (`resource-store.ts` lines
42-47): a fulfilled entry holding the supplied data, stamped with the
current time, at the current entry's `$version + 1`. -/
def mutatedEntry {α ε : Type} (v : α) (now : Nat) (r : Resource α ε) : Resource α ε :=
  { status := ResourceStatus.fulfilled, result := some v, timestamp := some now,
    version := some (r.version.getD 0 + 1) }

/-- On a fulfilled or rejected entry, `mutate` succeeds: it returns
`true`, replaces the entry by `mutatedEntry`, and notifies. -/
theorem mutate_success_eq {α ε : Type} {st : StoreState α ε} {r : Resource α ε}
    {v : α} {now : Nat}
    (h1 : st.entry = some r)
    (h2 : r.status = ResourceStatus.fulfilled ∨ r.status = ResourceStatus.rejected) :
    mutate v now st =
      (true, { st with entry := some (mutatedEntry v now r) },
       [Event.write (mutatedEntry v now r), Event.notify]) := by
  rcases h2 with h | h <;> simp [mutate, mutatedEntry, h1, h]

/-! ## Concrete fixtures used by witnesses and counterexamples -/

/-- A producer whose every invocation returns a promise. -/
def fnAsync : Nat → ProducerBehavior Nat Nat := fun _ => ProducerBehavior.async

/-- A fulfilled entry: result 7, completed at time 0, version 0. -/
def rFul : Resource Nat Nat :=
  { status := ResourceStatus.fulfilled, result := some 7,
    timestamp := some 0, version := some 0 }

/-- A store holding `rFul` with nothing in flight. -/
def stFul : StoreState Nat Nat := { entry := some rFul }

/-- The store right after a cold asynchronous fetch: a pending entry
holding suspender 0, with operation 0 in flight. -/
def stPend : StoreState Nat Nat :=
  (fetchResource fnAsync 0 {} (emptyStore Nat Nat)).2.1

/-! ## C4 -/

/-- C4 counterexample: on a key with no cached entry, `mutate` returns
`false` and does nothing — it does not succeed with version 0 as the
claim states (`resource-store.ts` line 38 requires `resource` to be
truthy). -/
theorem mutate_absent_cex :
    mutate (5 : Nat) 3 (emptyStore Nat Nat) = (false, emptyStore Nat Nat, []) := by
  rfl

/-- C4 (amended): `mutate(key, value)` succeeds — returns `true`, stores
a fulfilled entry holding `value` at the current entry's `$version + 1`,
and notifies the key's listeners — exactly when an entry exists whose
status is `Fulfilled` or `Rejected`; on an absent key it returns `false`,
changes nothing and notifies nobody. -/
theorem mutate_success_cases {α ε : Type} (st st2 : StoreState α ε) (r : Resource α ε)
    (v v2 : α) (now now2 : Nat)
    (h1 : st.entry = some r)
    (h2 : r.status = ResourceStatus.fulfilled ∨ r.status = ResourceStatus.rejected)
    (h3 : st2.entry = none) :
    mutate v now st =
      (true, { st with entry := some (mutatedEntry v now r) },
       [Event.write (mutatedEntry v now r), Event.notify]) ∧
    mutate v2 now2 st2 = (false, st2, []) := by
  refine ⟨mutate_success_eq h1 h2, ?_⟩
  simp [mutate, h3]

/-- Witness for C4: a concrete successful mutate on a fulfilled entry and
a concrete refused mutate on an absent key. -/
theorem mutate_success_cases_witness :
    mutate (9 : Nat) 5 stFul =
      (true, { stFul with entry := some (mutatedEntry 9 5 rFul) },
       [Event.write (mutatedEntry 9 5 rFul), Event.notify]) ∧
    mutate (1 : Nat) 2 (emptyStore Nat Nat) = (false, emptyStore Nat Nat, []) :=
  mutate_success_cases stFul (emptyStore Nat Nat) rFul 9 1 5 2 rfl (Or.inl rfl) rfl

/-! ## C5 -/

/-- C5: on a key whose entry is `Pending` or `Revalidating`, `mutate`
returns `false` as a normal boolean result, leaves the whole store
(in particular the cached entry) unchanged, produces no events, and
invokes none of the key's listeners. -/
theorem mutate_refusal_atomic {α ε L : Type} (st : StoreState α ε) (r : Resource α ε)
    (v : α) (now : Nat) (subs : List L)
    (h1 : st.entry = some r)
    (h2 : r.status = ResourceStatus.pending ∨ r.status = ResourceStatus.revalidating) :
    mutate v now st = (false, st, []) ∧
    invokedListeners subs (mutate v now st).2.2 = [] := by
  have h : mutate v now st = (false, st, []) := by
    rcases h2 with h | h <;> simp [mutate, h1, h]
  exact ⟨h, by rw [h]; rfl⟩

/-- Witness for C5: mutating while a concrete fetched key is pending is
refused and invokes no listener. -/
theorem mutate_refusal_atomic_witness :
    mutate (9 : Nat) 5 stPend = (false, stPend, []) ∧
    invokedListeners [0, 1] (mutate (9 : Nat) 5 stPend).2.2 = [] :=
  mutate_refusal_atomic stPend
    { status := ResourceStatus.pending, suspender := some 0 }
    9 5 [0, 1] rfl (Or.inl rfl)

/-! ## C10 -/

/-- C10: a successful `mutate` stamps the stored fulfilled entry with the
mutation time, so a non-forced resolve issued within the TTL of the
mutation time returns the mutated value without invoking the producer and
without touching the store, no matter how stale the previous entry was. -/
theorem mutate_resets_freshness {α ε : Type} (st : StoreState α ε) (r : Resource α ε)
    (v : α) (tm tr T : Nat) (fn : Nat → ProducerBehavior α ε)
    (opts : FetchResourceOptions)
    (h1 : st.entry = some r)
    (h2 : r.status = ResourceStatus.fulfilled ∨ r.status = ResourceStatus.rejected)
    (h3 : opts.ttl = some T)
    (h4 : opts.force.getD false = false)
    (h5 : tr < tm + seconds T) :
    (mutate v tm st).1 = true ∧
    (mutate v tm st).2.1.entry = some (mutatedEntry v tm r) ∧
    (mutatedEntry v tm r).timestamp = some tm ∧
    fetchResource fn tr opts (mutate v tm st).2.1 =
      (FetchOutcome.retResult (some v), (mutate v tm st).2.1, []) := by
  have hm := @mutate_success_eq α ε st r v tm h1 h2
  rw [hm]
  refine ⟨rfl, rfl, rfl, ?_⟩
  have hstale : isStale (opts.ttl.getD 60) tr (some (mutatedEntry v tm r)) = false := by
    simp only [isStale, mutatedEntry, h3, Option.getD_some]
    simp only [Bool.and_eq_false_iff, decide_eq_false_iff_not]
    right
    omega
  have := @fetch_noop α ε fn tr opts
    { st with entry := some (mutatedEntry v tm r) } (mutatedEntry v tm r)
    rfl hstale h4
  rw [this]
  simp [outcomeOf, mutatedEntry]

/-- Witness for C10: an entry fulfilled at time 0 is mutated at time
1000000; a non-forced resolve with a 60 second TTL at time 1059999
returns the mutated value untouched. -/
theorem mutate_resets_freshness_witness :
    (mutate (42 : Nat) 1000000 stFul).1 = true ∧
    (mutate (42 : Nat) 1000000 stFul).2.1.entry = some (mutatedEntry 42 1000000 rFul) ∧
    (mutatedEntry (42 : Nat) 1000000 (rFul)).timestamp = some 1000000 ∧
    fetchResource fnAsync 1059999 { ttl := some 60 } (mutate (42 : Nat) 1000000 stFul).2.1 =
      (FetchOutcome.retResult (some 42), (mutate (42 : Nat) 1000000 stFul).2.1, []) :=
  mutate_resets_freshness stFul rFul 42 1000000 1059999 60 fnAsync { ttl := some 60 }
    rfl (Or.inl rfl) rfl rfl (by simp only [seconds]; omega)

/-! ## `handleOperation` lemmas -/

/-- Every `handleOperation` call invokes the producer exactly once. -/
theorem invokeCount_handleOperation {α ε : Type} (fn : Nat → ProducerBehavior α ε)
    (now : Nat) (status : ResourceStatus) (res : Option (Resource α ε))
    (st : StoreState α ε) :
    invokeCount (handleOperation fn now status res st).2.2 = 1 := by
  cases h : fn st.invocations <;> simp [handleOperation, h, invokeCount]

/-- After `handleOperation`, the cached entry is the resource it returned
in the `resource` local. -/
theorem handleOperation_entry {α ε : Type} (fn : Nat → ProducerBehavior α ε)
    (now : Nat) (status : ResourceStatus) (res : Option (Resource α ε))
    (st : StoreState α ε) :
    (handleOperation fn now status res st).2.1.entry =
      some (handleOperation fn now status res st).1 := by
  cases h : fn st.invocations <;> simp [handleOperation, h]

/-- A forced call on a cold key chains two `handleOperation`s: first with
status `pending`, then with status `revalidating`. -/
theorem fetch_cold_force {α ε : Type} {fn : Nat → ProducerBehavior α ε} {now : Nat}
    {opts : FetchResourceOptions} {st : StoreState α ε}
    (h1 : st.entry = none)
    (h3 : opts.force.getD false = true) :
    fetchResource fn now opts st =
      (outcomeOf (handleOperation fn now ResourceStatus.revalidating
          (some (handleOperation fn now ResourceStatus.pending none st).1)
          (handleOperation fn now ResourceStatus.pending none st).2.1).1
        (opts.suspense.getD true),
       (handleOperation fn now ResourceStatus.revalidating
          (some (handleOperation fn now ResourceStatus.pending none st).1)
          (handleOperation fn now ResourceStatus.pending none st).2.1).2.1,
       (handleOperation fn now ResourceStatus.pending none st).2.2 ++
         (handleOperation fn now ResourceStatus.revalidating
            (some (handleOperation fn now ResourceStatus.pending none st).1)
            (handleOperation fn now ResourceStatus.pending none st).2.1).2.2) := by
  simp [fetchResource, h1, h3, isStale]

/-- Every `fetchResource` call ends with some entry cached for the key,
and its outcome is read off that final entry by the return/throw tail. -/
theorem fetch_entry_outcome {α ε : Type} (fn : Nat → ProducerBehavior α ε)
    (now : Nat) (opts : FetchResourceOptions) (st : StoreState α ε) :
    ∃ r, (fetchResource fn now opts st).2.1.entry = some r ∧
      (fetchResource fn now opts st).1 = outcomeOf r (opts.suspense.getD true) := by
  rcases hE : st.entry with _ | r
  · cases hF : opts.force.getD false
    · rw [fetch_cold hE hF]
      exact ⟨_, handleOperation_entry fn now ResourceStatus.pending none st, rfl⟩
    · rw [fetch_cold_force hE hF]
      exact ⟨_, handleOperation_entry fn now ResourceStatus.revalidating _ _, rfl⟩
  · cases hRv : (isStale (opts.ttl.getD 60) now (some r) || opts.force.getD false)
    · rcases Bool.or_eq_false_iff.mp hRv with ⟨hs, hf⟩
      rw [fetch_noop hE hs hf]
      exact ⟨r, hE, rfl⟩
    · rw [fetch_reval hE hRv]
      exact ⟨_, handleOperation_entry fn now ResourceStatus.revalidating (some r) st, rfl⟩

/-! ## C6 -/

/-- C6 counterexample: entry fulfilled at time 0 with `ttl = 60`; a
non-forced resolve at `now = 60000` — elapsed time exactly equal to the
TTL — does not invoke the producer and returns the cached value with the
store untouched, where the claim requires a producer invocation at
`elapsed ≥ T` (`isStale` uses a strict `<`). -/
theorem ttl_boundary_cex :
    invokeCount (fetchResource fnAsync 60000 { ttl := some 60 } stFul).2.2 = 0 ∧
    fetchResource fnAsync 60000 { ttl := some 60 } stFul =
      (FetchOutcome.retResult (some 7), stFul, []) :=
  ⟨rfl, rfl⟩

/-- C6 (amended): for a fulfilled entry with timestamp `t` and a
non-forced resolve with ttl `T` at time `now`, the call returns the
cached value without invoking the producer when `now - t ≤ seconds T`
(that is, strictly within or exactly at the TTL), and invokes the
producer exactly once when `now - t > seconds T`: the staleness boundary
is strict. -/
theorem ttl_boundary_strict {α ε : Type} (st : StoreState α ε) (r : Resource α ε)
    (fn : Nat → ProducerBehavior α ε) (now ttl : Nat) (opts : FetchResourceOptions)
    (h1 : st.entry = some r)
    (h2 : r.status = ResourceStatus.fulfilled)
    (h3 : opts.ttl = some ttl)
    (h4 : opts.force.getD false = false) :
    (¬ r.timestamp.getD 0 + seconds ttl < now →
      fetchResource fn now opts st = (FetchOutcome.retResult r.result, st, [])) ∧
    (r.timestamp.getD 0 + seconds ttl < now →
      invokeCount (fetchResource fn now opts st).2.2 = 1) := by
  constructor
  · intro hfresh
    have hs : isStale (opts.ttl.getD 60) now (some r) = false := by
      simp [isStale, h3, hfresh]
    rw [fetch_noop h1 hs h4]
    simp [outcomeOf, h2]
  · intro hstale
    have hs : (isStale (opts.ttl.getD 60) now (some r) || opts.force.getD false) = true := by
      simp [isStale, h3, h2, hstale]
    rw [fetch_reval h1 hs]
    exact invokeCount_handleOperation fn now ResourceStatus.revalidating (some r) st

/-- Witness for C6: with `rFul` (timestamp 0, ttl 60), a resolve at time
60000 is a cache hit and a resolve at 60001 invokes the producer once. -/
theorem ttl_boundary_strict_witness :
    fetchResource fnAsync 60000 { ttl := some 60 } stFul =
      (FetchOutcome.retResult (some 7), stFul, []) ∧
    invokeCount (fetchResource fnAsync 60001 { ttl := some 60 } stFul).2.2 = 1 :=
  ⟨(ttl_boundary_strict stFul rFul fnAsync 60000 60 { ttl := some 60 }
      rfl rfl rfl rfl).1 (by decide),
   (ttl_boundary_strict stFul rFul fnAsync 60001 60 { ttl := some 60 }
      rfl rfl rfl rfl).2 (by decide)⟩

/-! ## C7 -/

/-- C7: a resolve call that starts a revalidation of a fulfilled entry
holding `V1` still returns `V1` — not a pending signal and not the
`undefined` sentinel — and the revalidating entry it writes carries `V1`
as its readable result. -/
theorem stale_while_revalidate {α ε : Type} (st : StoreState α ε) (r : Resource α ε)
    (V : α) (fn : Nat → ProducerBehavior α ε) (now : Nat) (opts : FetchResourceOptions)
    (h1 : st.entry = some r)
    (_h2 : r.status = ResourceStatus.fulfilled)
    (h3 : r.result = some V)
    (h4 : (isStale (opts.ttl.getD 60) now (some r) || opts.force.getD false) = true)
    (h5 : fn st.invocations = ProducerBehavior.async) :
    (fetchResource fn now opts st).1 = FetchOutcome.retResult (some V) ∧
    (fetchResource fn now opts st).2.1.entry =
      some { r with status := ResourceStatus.revalidating,
                    suspender := some st.nextOpId } ∧
    ({ r with status := ResourceStatus.revalidating,
              suspender := some st.nextOpId } : Resource α ε).result = some V := by
  rw [fetch_reval h1 h4]
  refine ⟨?_, ?_, h3⟩
  · simp [handleOperation, h5, jsSpread, outcomeOf, h3]
  · simp [handleOperation, h5, jsSpread]

/-- Witness for C7: forcing a revalidation of `rFul` returns 7 and caches
a revalidating entry still holding 7. -/
theorem stale_while_revalidate_witness :
    (fetchResource fnAsync 5 { force := some true } stFul).1 =
      FetchOutcome.retResult (some 7) ∧
    (fetchResource fnAsync 5 { force := some true } stFul).2.1.entry =
      some { rFul with status := ResourceStatus.revalidating, suspender := some 0 } ∧
    ({ rFul with status := ResourceStatus.revalidating,
                 suspender := some 0 } : Resource Nat Nat).result = some 7 :=
  stale_while_revalidate stFul rFul 7 fnAsync 5 { force := some true }
    rfl rfl rfl rfl rfl

/-! ## C2 -/

/-- C2 counterexample: with a pending entry (suspender 0, one operation
in flight), a forced call invokes the producer a second time, leaves two
operations in flight, and stores a fresh suspender 1 — it does not
attach to the existing in-flight handle. -/
theorem force_second_invocation_cex :
    invokeCount (fetchResource fnAsync 0 { force := some true } stPend).2.2 = 1 ∧
    (fetchResource fnAsync 0 { force := some true } stPend).2.1.ops.length = 2 ∧
    ((fetchResource fnAsync 0 { force := some true } stPend).2.1.entry.map
      fun r => r.suspender) = some (some 1) ∧
    (stPend.entry.map fun r => r.suspender) = some (some 0) :=
  ⟨rfl, rfl, rfl, rfl⟩

/-- C2 (amended): for a key whose entry is `Pending` or `Revalidating`,
a forced call invokes the producer exactly once more, replaces the
entry with a revalidating entry holding a fresh suspender, and leaves
the previously registered in-flight operation in place (no
cancellation) — so two in-flight producer invocations can coexist for
one key. -/
theorem force_second_invocation {α ε : Type} (st : StoreState α ε) (r : Resource α ε)
    (fn : Nat → ProducerBehavior α ε) (now : Nat) (opts : FetchResourceOptions)
    (h1 : st.entry = some r)
    (h2 : r.status = ResourceStatus.pending ∨ r.status = ResourceStatus.revalidating)
    (h3 : opts.force = some true)
    (h4 : fn st.invocations = ProducerBehavior.async) :
    invokeCount (fetchResource fn now opts st).2.2 = 1 ∧
    (fetchResource fn now opts st).2.1.entry =
      some { r with status := ResourceStatus.revalidating,
                    suspender := some st.nextOpId } ∧
    (fetchResource fn now opts st).2.1.ops =
      st.ops ++ [⟨st.nextOpId,
        if r.timestamp.isSome then r.version.getD 0 + 1 else 0⟩] := by
  have hs : isStale (opts.ttl.getD 60) now (some r) = false :=
    isStale_of_not_fulfilled (by rcases h2 with h | h <;> simp [h])
  have hRv : (isStale (opts.ttl.getD 60) now (some r) || opts.force.getD false) = true := by
    simp [hs, h3]
  rw [fetch_reval h1 hRv]
  refine ⟨invokeCount_handleOperation fn now ResourceStatus.revalidating (some r) st,
    ?_, ?_⟩
  · simp [handleOperation, h4, jsSpread]
  · simp [handleOperation, h4, jsSpread, isSettled]

/-- Witness for C2 (amended): the forced refetch of the concrete pending
key `stPend`. -/
theorem force_second_invocation_witness :
    invokeCount (fetchResource fnAsync 3 { force := some true } stPend).2.2 = 1 ∧
    (fetchResource fnAsync 3 { force := some true } stPend).2.1.entry =
      some { status := ResourceStatus.revalidating, suspender := some 1 } ∧
    (fetchResource fnAsync 3 { force := some true } stPend).2.1.ops =
      stPend.ops ++ [⟨1, 0⟩] :=
  force_second_invocation stPend
    { status := ResourceStatus.pending, suspender := some 0 }
    fnAsync 3 { force := some true } rfl (Or.inl rfl) rfl rfl

/-! ## C8 -/

/-- C8: a producer failure is never raised to the caller.  Every
`fetchResource` call leaves some final entry cached, and its outcome is
determined by that entry: a `Rejected` entry's stored error is returned
as a value regardless of the suspense mode; a `Pending` entry makes the
call throw the pending suspender exactly when suspense is enabled and
return the `undefined` sentinel otherwise; in every other case the call
returns the stored result value.  These are the only possible outcomes. -/
theorem error_propagation_discipline {α ε : Type} (fn : Nat → ProducerBehavior α ε)
    (now : Nat) (opts : FetchResourceOptions) (st : StoreState α ε) :
    ∃ r, (fetchResource fn now opts st).2.1.entry = some r ∧
      (fetchResource fn now opts st).1 =
        (if r.status = ResourceStatus.rejected then FetchOutcome.retError r.error
         else if r.status = ResourceStatus.pending then
           (if opts.suspense.getD true then FetchOutcome.throwSuspender r.suspender
            else FetchOutcome.retUndefined)
         else FetchOutcome.retResult r.result) := by
  obtain ⟨r, he, ho⟩ := fetch_entry_outcome fn now opts st
  refine ⟨r, he, ?_⟩
  rw [ho]
  cases hs : r.status <;> simp [outcomeOf, hs]

/-! ## C1 -/

/-- Runs `n` successive synchronous `resolve` calls with the same arguments:
the cooperative-concurrency picture of `n` concurrent callers issuing
their calls in one tick, before any promise settles. -/
def callRepeat {α ε : Type} (fn : Nat → ProducerBehavior α ε) (now : Nat)
    (opts : FetchResourceOptions) :
    Nat → StoreState α ε → List (FetchOutcome α ε) × StoreState α ε × List (Event α ε)
  | 0, st => ([], st, [])
  | n + 1, st =>
    let f := fetchResource fn now opts st
    let rest := callRepeat fn now opts n f.2.1
    (f.1 :: rest.1, rest.2.1, f.2.2 ++ rest.2.2)

/-- While a key is pending with suspender `s`, any number of default
(suspense, non-forced) calls change nothing and all throw `s`. -/
theorem callRepeat_pending {α ε : Type} (fn : Nat → ProducerBehavior α ε) (now : Nat)
    (s : Nat) (r : Resource α ε) (st : StoreState α ε) (n : Nat)
    (h1 : st.entry = some r) (h2 : r.status = ResourceStatus.pending)
    (h3 : r.suspender = some s) :
    callRepeat fn now {} n st =
      (List.replicate n (FetchOutcome.throwSuspender (some s)), st, []) := by
  induction n with
  | zero => rfl
  | succ m ih =>
    have hno : fetchResource fn now {} st = (outcomeOf r true, st, []) :=
      fetch_noop h1 (isStale_of_not_fulfilled (by simp [h2])) rfl
    simp [callRepeat, hno, ih, outcomeOf, h2, h3, List.replicate_succ]

/-- C1: while a key's entry is `Pending`, a non-forced call performs no
producer invocation, changes nothing, and observes exactly the stored
suspender (throwing it in suspense mode, returning the sentinel
otherwise); hence `n ≥ 1` concurrent default-mode resolve calls on a
cold key with an asynchronous producer invoke the producer exactly once
and all observe the identical in-flight handle (suspender 0). -/
theorem fetch_dedup_pending {α ε : Type} (st : StoreState α ε) (r : Resource α ε)
    (fn : Nat → ProducerBehavior α ε) (now : Nat) (opts : FetchResourceOptions)
    (n : Nat) (fn2 : Nat → ProducerBehavior α ε) (now2 : Nat)
    (h1 : st.entry = some r)
    (h2 : r.status = ResourceStatus.pending)
    (h3 : opts.force.getD false = false)
    (h4 : 1 ≤ n)
    (h5 : fn2 0 = ProducerBehavior.async) :
    fetchResource fn now opts st =
      ((if opts.suspense.getD true then FetchOutcome.throwSuspender r.suspender
        else FetchOutcome.retUndefined), st, []) ∧
    (callRepeat fn2 now2 {} n (emptyStore α ε)).1 =
      List.replicate n (FetchOutcome.throwSuspender (some 0)) ∧
    invokeCount (callRepeat fn2 now2 {} n (emptyStore α ε)).2.2 = 1 := by
  constructor
  · rw [fetch_noop h1 (isStale_of_not_fulfilled (by simp [h2])) h3]
    simp [outcomeOf, h2]
  · obtain ⟨m, rfl⟩ : ∃ m, n = m + 1 := ⟨n - 1, by omega⟩
    have hcold := @fetch_cold α ε fn2 now2 {} (emptyStore α ε) rfl rfl
    have hop : handleOperation fn2 now2 ResourceStatus.pending none (emptyStore α ε) =
        ({ status := ResourceStatus.pending, suspender := some 0 },
         { entry := some { status := ResourceStatus.pending, suspender := some 0 },
           ops := [⟨0, 0⟩], nextOpId := 1, invocations := 1 },
         [Event.invoke,
          Event.write { status := ResourceStatus.pending, suspender := some 0 },
          Event.notify]) := by
      simp [handleOperation, emptyStore, h5, jsSpread, isSettled]
    have hrest := callRepeat_pending fn2 now2 0
      { status := ResourceStatus.pending, suspender := some 0 }
      { entry := some { status := ResourceStatus.pending, suspender := some 0 },
        ops := [⟨0, 0⟩], nextOpId := 1, invocations := 1 }
      m rfl rfl rfl
    constructor
    · simp [callRepeat, hcold, hop, hrest, outcomeOf, List.replicate_succ]
    · simp [callRepeat, hcold, hop, hrest, invokeCount]

/-- Witness for C1: three concurrent default calls on the concrete cold
key, and one further non-forced call on the resulting pending entry. -/
theorem fetch_dedup_pending_witness :
    fetchResource fnAsync 1 {} stPend =
      ((if (({} : FetchResourceOptions).suspense.getD true) then
          FetchOutcome.throwSuspender
            ({ status := ResourceStatus.pending,
               suspender := some 0 } : Resource Nat Nat).suspender
        else FetchOutcome.retUndefined), stPend, []) ∧
    (callRepeat fnAsync 0 {} 3 (emptyStore Nat Nat)).1 =
      List.replicate 3 (FetchOutcome.throwSuspender (some 0)) ∧
    invokeCount (callRepeat fnAsync 0 {} 3 (emptyStore Nat Nat)).2.2 = 1 :=
  fetch_dedup_pending stPend
    { status := ResourceStatus.pending, suspender := some 0 }
    fnAsync 1 {} 3 fnAsync 0 rfl rfl rfl (by omega) rfl

/-! ## C9 -/

/-- Appending notified traces preserves notified-ness. -/
theorem writesNotifiedB_append {α ε : Type} {e1 e2 : List (Event α ε)}
    (h1 : writesNotifiedB e1 = true) (h2 : writesNotifiedB e2 = true) :
    writesNotifiedB (e1 ++ e2) = true := by
  induction e1 with
  | nil => simpa using h2
  | cons e es ih =>
    cases e with
    | write r =>
      simp only [writesNotifiedB, Bool.and_eq_true] at h1
      simp only [List.cons_append, writesNotifiedB, Bool.and_eq_true]
      exact ⟨by simp [List.any_append, h1.1], ih h1.2⟩
    | invoke =>
      simp only [writesNotifiedB] at h1
      simpa only [List.cons_append, writesNotifiedB] using ih h1
    | notify =>
      simp only [writesNotifiedB] at h1
      simpa only [List.cons_append, writesNotifiedB] using ih h1

/-- Appending traces notified-except-rejected preserves the property. -/
theorem writesNotifiedUnlessRejectedB_append {α ε : Type} {e1 e2 : List (Event α ε)}
    (h1 : writesNotifiedUnlessRejectedB e1 = true)
    (h2 : writesNotifiedUnlessRejectedB e2 = true) :
    writesNotifiedUnlessRejectedB (e1 ++ e2) = true := by
  induction e1 with
  | nil => simpa using h2
  | cons e es ih =>
    cases e with
    | write r =>
      simp only [writesNotifiedUnlessRejectedB, Bool.and_eq_true] at h1
      simp only [List.cons_append, writesNotifiedUnlessRejectedB, Bool.and_eq_true]
      refine ⟨?_, ih h1.2⟩
      rcases Bool.or_eq_true_iff.mp h1.1 with h | h
      · simp [h]
      · simp [List.any_append, h]
    | invoke =>
      simp only [writesNotifiedUnlessRejectedB] at h1
      simpa only [List.cons_append, writesNotifiedUnlessRejectedB] using ih h1
    | notify =>
      simp only [writesNotifiedUnlessRejectedB] at h1
      simpa only [List.cons_append, writesNotifiedUnlessRejectedB] using ih h1

/-- Every write of a `handleOperation` call is followed by a
notification, except the rejected write of a synchronous throw. -/
theorem writesNotifiedUnlessRejectedB_handleOperation {α ε : Type}
    (fn : Nat → ProducerBehavior α ε) (now : Nat) (status : ResourceStatus)
    (res : Option (Resource α ε)) (st : StoreState α ε) :
    writesNotifiedUnlessRejectedB (handleOperation fn now status res st).2.2 = true := by
  cases h : fn st.invocations <;>
    simp [handleOperation, h, writesNotifiedUnlessRejectedB, isNotifyEvent]

/-- When the producer does not throw synchronously, every write of a
`handleOperation` call is followed by a notification. -/
theorem writesNotifiedB_handleOperation {α ε : Type}
    (fn : Nat → ProducerBehavior α ε) (now : Nat) (status : ResourceStatus)
    (res : Option (Resource α ε)) (st : StoreState α ε)
    (hf : ∀ e, fn st.invocations ≠ ProducerBehavior.syncThrow e) :
    writesNotifiedB (handleOperation fn now status res st).2.2 = true := by
  cases h : fn st.invocations with
  | syncThrow e => exact absurd h (hf e)
  | syncValue v => simp [handleOperation, h, writesNotifiedB, isNotifyEvent]
  | async => simp [handleOperation, h, writesNotifiedB, isNotifyEvent]

/-- Every write of a `fetchResource` call is followed by a notification
except possibly a rejected write. -/
theorem writesNotifiedUnlessRejectedB_fetch {α ε : Type}
    (fn : Nat → ProducerBehavior α ε) (now : Nat) (opts : FetchResourceOptions)
    (st : StoreState α ε) :
    writesNotifiedUnlessRejectedB (fetchResource fn now opts st).2.2 = true := by
  rcases hE : st.entry with _ | r
  · cases hF : opts.force.getD false
    · rw [fetch_cold hE hF]
      exact writesNotifiedUnlessRejectedB_handleOperation fn now _ _ _
    · rw [fetch_cold_force hE hF]
      exact writesNotifiedUnlessRejectedB_append
        (writesNotifiedUnlessRejectedB_handleOperation fn now _ _ _)
        (writesNotifiedUnlessRejectedB_handleOperation fn now _ _ _)
  · cases hRv : (isStale (opts.ttl.getD 60) now (some r) || opts.force.getD false)
    · rcases Bool.or_eq_false_iff.mp hRv with ⟨hs, hf⟩
      rw [fetch_noop hE hs hf]
      rfl
    · rw [fetch_reval hE hRv]
      exact writesNotifiedUnlessRejectedB_handleOperation fn now _ _ _

/-- When no producer invocation throws synchronously, every write of a
`fetchResource` call is followed by a notification. -/
theorem writesNotifiedB_fetch {α ε : Type}
    (fn : Nat → ProducerBehavior α ε) (now : Nat) (opts : FetchResourceOptions)
    (st : StoreState α ε)
    (hfn : ∀ k e, fn k ≠ ProducerBehavior.syncThrow e) :
    writesNotifiedB (fetchResource fn now opts st).2.2 = true := by
  rcases hE : st.entry with _ | r
  · cases hF : opts.force.getD false
    · rw [fetch_cold hE hF]
      exact writesNotifiedB_handleOperation fn now _ _ _ (hfn _)
    · rw [fetch_cold_force hE hF]
      exact writesNotifiedB_append
        (writesNotifiedB_handleOperation fn now _ _ _ (hfn _))
        (writesNotifiedB_handleOperation fn now _ _ _ (hfn _))
  · cases hRv : (isStale (opts.ttl.getD 60) now (some r) || opts.force.getD false)
    · rcases Bool.or_eq_false_iff.mp hRv with ⟨hs, hf⟩
      rw [fetch_noop hE hs hf]
      rfl
    · rw [fetch_reval hE hRv]
      exact writesNotifiedB_handleOperation fn now _ _ _ (hfn _)

/-- Every write of a `mutate` call is followed by a notification. -/
theorem writesNotifiedB_mutate {α ε : Type} (v : α) (now : Nat) (st : StoreState α ε) :
    writesNotifiedB (mutate v now st).2.2 = true := by
  rcases hE : st.entry with _ | r
  · simp only [mutate, hE]
    rfl
  · simp only [mutate, hE]
    split <;> simp [writesNotifiedB, isNotifyEvent]

/-- Every write of a settlement is followed by a notification. -/
theorem writesNotifiedB_settle {α ε : Type} (sid : Nat) (res : SettleResult α ε)
    (now : Nat) (st : StoreState α ε) :
    writesNotifiedB (settle sid res now st).2 = true := by
  rcases hf : st.ops.find? (fun o => o.id == sid) with _ | op
  · simp only [settle, hf]
    rfl
  · cases res <;> simp [settle, hf, writesNotifiedB, isNotifyEvent]

/-- A producer whose every invocation throws synchronously with error 3. -/
def fnThrow : Nat → ProducerBehavior Nat Nat := fun _ => ProducerBehavior.syncThrow 3

/-- C9 counterexample: when the producer throws synchronously on a cold
key, the call writes a `Rejected` entry and returns without any listener
notification — the trace is exactly an invocation followed by a write,
with no `notify` after the write (`fetch-resource.ts` lines 98-108 call
`store.cache.set` and `return` without `store.notifySubscribers`). -/
theorem sync_throw_no_notify_cex :
    (fetchResource fnThrow 0 {} (emptyStore Nat Nat)).2.2 =
      [Event.invoke,
       Event.write { status := ResourceStatus.rejected, error := some 3,
                     timestamp := some 0, version := some 0 }] ∧
    writesNotifiedB (fetchResource fnThrow 0 {} (emptyStore Nat Nat)).2.2 = false :=
  ⟨rfl, rfl⟩

/-- C9 (amended): every replacement of a key's cached entry performed by
`mutate`, by a promise settlement, or by a `fetchResource` call whose
producer invocations do not throw synchronously is followed by an
invocation of that key's listeners before the operation returns; the
single exception is the `Rejected` entry written when the producer
throws synchronously, which is not followed by any notification in that
call (every non-rejected write of any `fetchResource` call is always
notified). -/
theorem every_write_notifies_amended {α ε : Type}
    (v : α) (nowm : Nat) (stm : StoreState α ε)
    (sid : Nat) (res : SettleResult α ε) (nows : Nat) (sts : StoreState α ε)
    (fnf : Nat → ProducerBehavior α ε) (nowf : Nat) (optsf : FetchResourceOptions)
    (stf : StoreState α ε)
    (fng : Nat → ProducerBehavior α ε) (nowg : Nat) (optsg : FetchResourceOptions)
    (stg : StoreState α ε)
    (hf : ∀ k e, fnf k ≠ ProducerBehavior.syncThrow e) :
    writesNotifiedB (mutate v nowm stm).2.2 = true ∧
    writesNotifiedB (settle sid res nows sts).2 = true ∧
    writesNotifiedB (fetchResource fnf nowf optsf stf).2.2 = true ∧
    writesNotifiedUnlessRejectedB (fetchResource fng nowg optsg stg).2.2 = true :=
  ⟨writesNotifiedB_mutate v nowm stm,
   writesNotifiedB_settle sid res nows sts,
   writesNotifiedB_fetch fnf nowf optsf stf hf,
   writesNotifiedUnlessRejectedB_fetch fng nowg optsg stg⟩

/-- Witness for C9 (amended): concrete mutate, settlement, asynchronous
fetch, and synchronously-throwing fetch. -/
theorem every_write_notifies_amended_witness :
    writesNotifiedB (mutate (1 : Nat) 4 stFul).2.2 = true ∧
    writesNotifiedB (settle 0 (SettleResult.ok (5 : Nat)) 6 stPend).2 = true ∧
    writesNotifiedB (fetchResource fnAsync 0 { force := some true } stFul).2.2 = true ∧
    writesNotifiedUnlessRejectedB (fetchResource fnThrow 0 {} (emptyStore Nat Nat)).2.2 =
      true :=
  every_write_notifies_amended 1 4 stFul 0 (SettleResult.ok 5) 6 stPend
    fnAsync 0 { force := some true } stFul fnThrow 0 {} (emptyStore Nat Nat)
    (by intro k e; simp [fnAsync])

/-! ## C3: trace lemmas -/

/-- The function `settledVersions` distributes over trace concatenation. -/
theorem settledVersions_append {α ε : Type} (e1 e2 : List (Event α ε)) :
    settledVersions (e1 ++ e2) = settledVersions e1 ++ settledVersions e2 := by
  induction e1 with
  | nil => rfl
  | cons e es ih =>
    cases e with
    | write r =>
      simp only [List.cons_append, settledVersions]
      split <;> simp [ih]
    | invoke => simpa [settledVersions] using ih
    | notify => simpa [settledVersions] using ih

/-- Nondecreasing write chains compose over trace concatenation. -/
theorem writeChainB_append {α ε : Type} {v v' v'' : Nat} {e1 e2 : List (Event α ε)}
    (h1 : writeChainB v e1 v' = true) (h2 : writeChainB v' e2 v'' = true) :
    writeChainB v (e1 ++ e2) v'' = true := by
  induction e1 generalizing v with
  | nil =>
    have hv : v' = v := by simpa [writeChainB] using h1
    subst hv
    simpa using h2
  | cons e es ih =>
    cases e with
    | write r =>
      simp only [writeChainB, Bool.and_eq_true] at h1
      simp only [List.cons_append, writeChainB, Bool.and_eq_true]
      exact ⟨h1.1, ih h1.2⟩
    | invoke =>
      simp only [writeChainB] at h1
      simpa only [List.cons_append, writeChainB] using ih h1
    | notify =>
      simp only [writeChainB] at h1
      simpa only [List.cons_append, writeChainB] using ih h1

/-- What one overlap-free step guarantees: the invariant is preserved,
the settlement versions of its trace are consecutive starting at the
key's current settlement height, the height grows by their number, and
no write carries an older version than the entry it replaces. -/
def Progress {α ε : Type} (st st' : StoreState α ε) (ev : List (Event α ε)) : Prop :=
  Inv st' ∧
  height st'.entry = height st.entry + (settledVersions ev).length ∧
  settledVersions ev = List.range' (height st.entry) (settledVersions ev).length ∧
  writeChainB (entryVersion st.entry) ev (entryVersion st'.entry) = true

/-- A step that does nothing makes trivial progress. -/
theorem progress_nil {α ε : Type} {st : StoreState α ε} (hI : Inv st) :
    Progress st st [] := by
  refine ⟨hI, by simp [settledVersions], by simp [settledVersions, List.range'], ?_⟩
  simp [writeChainB]

/-- Progress composes. -/
theorem progress_trans {α ε : Type} {st st1 st2 : StoreState α ε}
    {e1 e2 : List (Event α ε)}
    (h1 : Progress st st1 e1) (h2 : Progress st1 st2 e2) :
    Progress st st2 (e1 ++ e2) := by
  obtain ⟨hI1, hh1, hr1, hc1⟩ := h1
  obtain ⟨hI2, hh2, hr2, hc2⟩ := h2
  refine ⟨hI2, ?_, ?_, writeChainB_append hc1 hc2⟩
  · rw [settledVersions_append, List.length_append]
    omega
  · rw [settledVersions_append, List.length_append, hr1, hr2, hh1]
    have h := List.range'_append (height st.entry) (settledVersions e1).length
      (settledVersions e2).length 1
    rw [Nat.one_mul] at h
    simp only [List.length_range']
    rw [h]
    congr 1
    omega

/-- A `mutate` step makes overlap-free progress from any invariant
state. -/
theorem step_progress_mutate {α ε : Type} (fn : Nat → ProducerBehavior α ε)
    (st : StoreState α ε) (v : α) (now : Nat) (hI : Inv st) :
    Progress st (step fn st (Cmd.mutateCmd v now)).1
      (step fn st (Cmd.mutateCmd v now)).2 := by
  have hI' := hI
  rcases hI with ⟨hops, hent⟩ | ⟨op, r, hops, hent, hstat, hnv, hpend, hreval⟩
  · rcases hent with hnone | ⟨r, hr, hst, hts, hv⟩
    · have hm : mutate v now st = (false, st, []) := by simp [mutate, hnone]
      simpa [step, hm] using progress_nil hI'
    · have hm := @mutate_success_eq α ε st r v now hr hst
      obtain ⟨vv, hvv⟩ := Option.isSome_iff_exists.mp hv
      simp only [step, hm]
      refine ⟨?_, ?_, ?_, ?_⟩
      · exact Or.inl ⟨by simpa using hops,
          Or.inr ⟨mutatedEntry v now r, rfl, Or.inl rfl, rfl, rfl⟩⟩
      · simp [height, settledVersions, mutatedEntry, hr, hts, hvv]
      · simp [height, settledVersions, mutatedEntry, hr, hts, hvv, List.range']
      · simp [writeChainB, entryVersion, hr, hvv, mutatedEntry]
  · rcases hstat with h | h <;>
    · have hm : mutate v now st = (false, st, []) := by simp [mutate, hent, h]
      simpa [step, hm] using progress_nil hI'

/-- A settlement step makes overlap-free progress from any invariant
state. -/
theorem step_progress_settle {α ε : Type} (fn : Nat → ProducerBehavior α ε)
    (st : StoreState α ε) (sid : Nat) (res : SettleResult α ε) (now : Nat)
    (hI : Inv st) :
    Progress st (step fn st (Cmd.settleOp sid res now)).1
      (step fn st (Cmd.settleOp sid res now)).2 := by
  have hI' := hI
  rcases hI with ⟨hops, hent⟩ | ⟨op, r, hops, hent, hstat, hnv, hpend, hreval⟩
  · have hm : settle sid res now st = (st, []) := by simp [settle, hops]
    simpa [step, hm] using progress_nil hI'
  · by_cases hid : op.id = sid
    · have hfind : st.ops.find? (fun o => o.id == sid) = some op := by
        simp [hops, List.find?, hid]
      have hfilter : st.ops.filter (fun o => o.id != sid) = [] := by
        simp [hops, List.filter, hid]
      cases res with
      | ok w =>
        simp only [step, settle, hfind, hfilter]
        refine ⟨?_, ?_, ?_, ?_⟩
        · exact Or.inl ⟨rfl, Or.inr ⟨_, rfl, Or.inl rfl, rfl, rfl⟩⟩
        · rw [← hnv]
          rfl
        · rw [← hnv]
          rfl
        · rcases hstat with h | h
          · obtain ⟨hts0, hv0⟩ := hpend h
            simp [writeChainB, entryVersion, hent, hv0]
          · obtain ⟨hts1, hv1⟩ := hreval h
            obtain ⟨vv, hvv⟩ := Option.isSome_iff_exists.mp hv1
            have : op.nextVersion = vv + 1 := by
              rw [hnv]
              simp [height, hent, hts1, hvv]
            simp [writeChainB, entryVersion, hent, hvv, this]
      | err e =>
        simp only [step, settle, hfind, hfilter]
        refine ⟨?_, ?_, ?_, ?_⟩
        · exact Or.inl ⟨rfl, Or.inr ⟨_, rfl, Or.inr rfl, rfl, rfl⟩⟩
        · rw [← hnv]
          rfl
        · rw [← hnv]
          rfl
        · rcases hstat with h | h
          · obtain ⟨hts0, hv0⟩ := hpend h
            simp [writeChainB, entryVersion, hent, hv0]
          · obtain ⟨hts1, hv1⟩ := hreval h
            obtain ⟨vv, hvv⟩ := Option.isSome_iff_exists.mp hv1
            have : op.nextVersion = vv + 1 := by
              rw [hnv]
              simp [height, hent, hts1, hvv]
            simp [writeChainB, entryVersion, hent, hvv, this]
    · have hfind : st.ops.find? (fun o => o.id == sid) = none := by
        simp [hops, List.find?, hid]
      have hm : settle sid res now st = (st, []) := by simp [settle, hfind]
      simpa [step, hm] using progress_nil hI'

/-- A `fetchResource` step that is not a forced call issued while an
operation may be in flight makes progress from any invariant state. -/
theorem step_progress_fetch {α ε : Type} (fn : Nat → ProducerBehavior α ε)
    (st : StoreState α ε) (now : Nat) (opts : FetchResourceOptions)
    (hI : Inv st) (hok : okCmd st (Cmd.fetch now opts)) :
    Progress st (step fn st (Cmd.fetch now opts)).1
      (step fn st (Cmd.fetch now opts)).2 := by
  have hI' := hI
  rcases hI with ⟨hops, hent⟩ | ⟨op, r, hops, hent, hstat, hnv, hpend, hreval⟩
  · rcases hent with hnone | ⟨r, hr, hst, hts, hv⟩
    · -- cold key: the guard forbids `force`, so one pending operation runs
      have hF : opts.force.getD false = false := by
        rcases hok with h | ⟨_, hset⟩
        · exact h
        · rw [hnone] at hset
          simp [isSettled] at hset
      have hc := @fetch_cold α ε fn now opts st hnone hF
      simp only [step, hc]
      cases hb : fn st.invocations with
      | syncValue w =>
        simp only [handleOperation, hb, isSettled]
        refine ⟨?_, ?_, ?_, ?_⟩
        · exact Or.inl ⟨by simpa using hops, Or.inr ⟨_, rfl, Or.inl rfl, rfl, rfl⟩⟩
        · simp [height, hnone, settledVersions]
        · simp [settledVersions, height, hnone, List.range']
        · simp [writeChainB, entryVersion, hnone]
      | syncThrow e =>
        simp only [handleOperation, hb, isSettled]
        refine ⟨?_, ?_, ?_, ?_⟩
        · exact Or.inl ⟨by simpa using hops, Or.inr ⟨_, rfl, Or.inr rfl, rfl, rfl⟩⟩
        · simp [height, hnone, settledVersions]
        · simp [settledVersions, height, hnone, List.range']
        · simp [writeChainB, entryVersion, hnone]
      | async =>
        simp only [handleOperation, hb, isSettled, jsSpread]
        refine ⟨?_, ?_, ?_, ?_⟩
        · refine Or.inr ⟨⟨st.nextOpId, 0⟩, _, by simp [hops], rfl, Or.inl rfl, rfl,
            fun _ => ⟨rfl, rfl⟩, fun h => by simp at h⟩
        · simp [height, hnone, settledVersions]
        · simp [settledVersions, height, hnone, List.range']
        · simp [writeChainB, entryVersion, hnone]
    · -- settled entry: either a cache hit or one revalidating operation
      obtain ⟨vv, hvv⟩ := Option.isSome_iff_exists.mp hv
      cases hRv : (isStale (opts.ttl.getD 60) now (some r) || opts.force.getD false) with
      | false =>
        rcases Bool.or_eq_false_iff.mp hRv with ⟨hs, hf⟩
        have hnoop := @fetch_noop α ε fn now opts st r hr hs hf
        simpa [step, hnoop] using progress_nil hI'
      | true =>
        have hrv := @fetch_reval α ε fn now opts st r hr hRv
        simp only [step, hrv]
        cases hb : fn st.invocations with
        | syncValue w =>
          simp only [handleOperation, hb, isSettled, hts]
          refine ⟨?_, ?_, ?_, ?_⟩
          · exact Or.inl ⟨by simpa using hops, Or.inr ⟨_, rfl, Or.inl rfl, rfl, rfl⟩⟩
          · simp [height, hr, hts, hvv, settledVersions]
          · simp [settledVersions, height, hr, hts, hvv, List.range']
          · simp [writeChainB, entryVersion, hr, hvv]
        | syncThrow e =>
          simp only [handleOperation, hb, isSettled, hts]
          refine ⟨?_, ?_, ?_, ?_⟩
          · exact Or.inl ⟨by simpa using hops, Or.inr ⟨_, rfl, Or.inr rfl, rfl, rfl⟩⟩
          · simp [height, hr, hts, hvv, settledVersions]
          · simp [settledVersions, height, hr, hts, hvv, List.range']
          · simp [writeChainB, entryVersion, hr, hvv]
        | async =>
          simp only [handleOperation, hb, isSettled, hts, jsSpread]
          refine ⟨?_, ?_, ?_, ?_⟩
          · refine Or.inr ⟨⟨st.nextOpId, r.version.getD 0 + 1⟩, _, by simp [hops], rfl,
              Or.inr rfl, ?_, fun h => by simp at h, fun _ => ⟨hts, hv⟩⟩
            simp [height, hts, hvv]
          · simp [height, hr, hts, hvv, settledVersions]
          · simp [settledVersions, height, hr, hts, hvv, List.range']
          · simp [writeChainB, entryVersion, hr, hvv]
  · -- an operation is in flight: the entry is pending/revalidating, the
    -- guard forbids `force`, and staleness never fires on these statuses
    have hF : opts.force.getD false = false := by
      rcases hok with h | ⟨hopsE, _⟩
      · exact h
      · rw [hops] at hopsE
        simp at hopsE
    have hs : isStale (opts.ttl.getD 60) now (some r) = false :=
      isStale_of_not_fulfilled (by rcases hstat with h | h <;> simp [h])
    have hnoop := @fetch_noop α ε fn now opts st r hent hs hF
    simpa [step, hnoop] using progress_nil hI'

/-- Any overlap-free step makes progress. -/
theorem step_progress {α ε : Type} (fn : Nat → ProducerBehavior α ε)
    (st : StoreState α ε) (c : Cmd α ε) (hI : Inv st) (hok : okCmd st c) :
    Progress st (step fn st c).1 (step fn st c).2 := by
  cases c with
  | fetch now opts => exact step_progress_fetch fn st now opts hI hok
  | settleOp sid res now => exact step_progress_settle fn st sid res now hI
  | mutateCmd v now => exact step_progress_mutate fn st v now hI

/-- A guarded run from an invariant state makes progress. -/
theorem run_progress {α ε : Type} (fn : Nat → ProducerBehavior α ε)
    (cs : List (Cmd α ε)) :
    ∀ st : StoreState α ε, Inv st → Guarded fn st cs →
      Progress st (run fn st cs).1 (run fn st cs).2 := by
  induction cs with
  | nil =>
    intro st hI _
    simpa [run] using progress_nil hI
  | cons c cs ih =>
    intro st hI hG
    simp only [Guarded] at hG
    obtain ⟨hok, hG'⟩ := hG
    have h1 := step_progress fn st c hI hok
    have h2 := ih _ h1.1 hG'
    simpa [run] using progress_trans h1 h2

/-- The run of the C3 counterexample: a cold fetch settles at version 0,
then two forced refetches are issued while the first revalidation is
still in flight, and both revalidations settle. -/
def overlapCmds : List (Cmd Nat Nat) :=
  [Cmd.fetch 0 {}, Cmd.settleOp 0 (SettleResult.ok 5) 0,
   Cmd.fetch 0 { force := some true }, Cmd.fetch 0 { force := some true },
   Cmd.settleOp 1 (SettleResult.ok 6) 0, Cmd.settleOp 2 (SettleResult.ok 7) 0]

/-- C3 counterexample: in the `overlapCmds` run the successive
settlements carry versions 0, 1, 1 — two consecutive settlements write
the same `$version`, so the settlement sequence fails to increase
strictly by 1 from 0 (a forced call while a revalidation is in flight
starts a second operation that captured the same `nextVersion`). -/
theorem version_monotonic_cex :
    settledVersions (run fnAsync (emptyStore Nat Nat) overlapCmds).2 = [0, 1, 1] ∧
    settledVersions (run fnAsync (emptyStore Nat Nat) overlapCmds).2 ≠
      List.range
        (settledVersions (run fnAsync (emptyStore Nat Nat) overlapCmds).2).length :=
  ⟨rfl, by decide⟩

/-- C3 (amended): provided no forced fetch is issued while an operation
is in flight for the key (and none on a key with no entry), the
`$version` values across successive settlements — completed fetches,
completed revalidations, and successful mutates — are exactly
0, 1, 2, …, strictly increasing by 1 from 0; no write ever replaces the
key's entry with one carrying an older `$version`; and a resolve call
that returns an unexpired cached value leaves the store (hence
`$version`) unchanged. -/
theorem version_monotonic_guarded {α ε : Type} (fn : Nat → ProducerBehavior α ε)
    (cs : List (Cmd α ε)) (st : StoreState α ε) (r : Resource α ε)
    (fn2 : Nat → ProducerBehavior α ε) (now ttl : Nat) (opts : FetchResourceOptions)
    (hG : Guarded fn (emptyStore α ε) cs)
    (h1 : st.entry = some r)
    (h2 : r.status = ResourceStatus.fulfilled)
    (h3 : opts.ttl = some ttl)
    (h4 : opts.force.getD false = false)
    (h5 : ¬ r.timestamp.getD 0 + seconds ttl < now) :
    settledVersions (run fn (emptyStore α ε) cs).2 =
      List.range (settledVersions (run fn (emptyStore α ε) cs).2).length ∧
    writeChainB 0 (run fn (emptyStore α ε) cs).2
      (entryVersion (run fn (emptyStore α ε) cs).1.entry) = true ∧
    fetchResource fn2 now opts st = (FetchOutcome.retResult r.result, st, []) := by
  have hIe : Inv (emptyStore α ε) := Or.inl ⟨rfl, Or.inl rfl⟩
  have hp := run_progress fn cs (emptyStore α ε) hIe hG
  obtain ⟨_, _, hr', hc⟩ := hp
  refine ⟨?_, ?_, ?_⟩
  · rw [List.range_eq_range']
    exact hr'
  · exact hc
  · have hs : isStale (opts.ttl.getD 60) now (some r) = false := by
      simp [isStale, h3, h5]
    rw [fetch_noop h1 hs h4]
    simp [outcomeOf, h2]

/-- A guarded run: cold fetch, settlement, mutate, fresh re-read. -/
def goodCmds : List (Cmd Nat Nat) :=
  [Cmd.fetch 0 {}, Cmd.settleOp 0 (SettleResult.ok 5) 1000,
   Cmd.mutateCmd 8 2000, Cmd.fetch 2500 {}]

/-- Witness for C3 (amended): the concrete guarded run `goodCmds` has
settlement versions `List.range`, a nondecreasing write chain, and a
fresh read of `stFul` is a no-op. -/
theorem version_monotonic_guarded_witness :
    settledVersions (run fnAsync (emptyStore Nat Nat) goodCmds).2 =
      List.range (settledVersions (run fnAsync (emptyStore Nat Nat) goodCmds).2).length ∧
    writeChainB 0 (run fnAsync (emptyStore Nat Nat) goodCmds).2
      (entryVersion (run fnAsync (emptyStore Nat Nat) goodCmds).1.entry) = true ∧
    fetchResource fnAsync 30000 { ttl := some 60 } stFul =
      (FetchOutcome.retResult (some 7), stFul, []) :=
  version_monotonic_guarded fnAsync goodCmds stFul rFul fnAsync 30000 60
    { ttl := some 60 } (by simp [Guarded, okCmd]) rfl rfl rfl rfl (by decide)

end UseResource
